import Mathlib

/-!
Verification of the tag-history and generation-reconciliation model of an
image stream registry control plane, against the data model declared in
`pkg/image/api/v1beta3/types.go`.

The Go source in scope is schema-only: it declares the data types
(`TagEvent`, `NamedTagEventList`, `TagEventCondition`, `SignatureCondition`,
`TagReference`, `ImageStreamStatus`). The behavioral operations
(`TagEventHistory.Append`, `Latest`, `TagConditionTracker.SetCondition`,
`StreamReconciler.Reconcile`, import-outcome folding) are not part of the
given source files, so they are modelled here from the specification's own
contracts and marked as such in their doc comments.

Timestamps are modelled as natural numbers, `int64` generations as `Int`,
and `kapi.ConditionStatus` (the strings "True"/"False"/"Unknown") as a
three-valued inductive type.
-/

namespace Origin

/-- Model of `unversioned.Time`: an abstract timestamp. -/
abbrev Time := Nat

/-- Model of `kapi.ConditionStatus`: one of True, False, Unknown. -/
inductive ConditionStatus where
  | condTrue
  | condFalse
  | condUnknown
deriving DecidableEq

/-- `TagEventConditionType` from types.go; the const block declares the single
value `ImportSuccess`. -/
inductive TagEventConditionType where
  | ImportSuccess
deriving DecidableEq

/-- `TagEvent` from types.go: created time, docker image reference, image
identity, and the spec tag generation that produced this binding
(a non-optional `int64`). -/
structure TagEvent where
  created : Time
  dockerImageReference : String
  image : String
  generation : Int
deriving DecidableEq

/-- `TagEventCondition` from types.go: type, status, last transition time,
reason, message, and a non-optional `int64` generation. Note the struct has
no last-probe-time field, unlike `SignatureCondition`. -/
structure TagEventCondition where
  type : TagEventConditionType
  status : ConditionStatus
  lastTransitionTime : Time
  reason : String
  message : String
  generation : Int
deriving DecidableEq

/-- `NamedTagEventList` from types.go: a tag name, its ordered `TagEvent`
history (index 0 = most recent), and its condition list. -/
structure NamedTagEventList where
  tag : String
  items : List TagEvent
  conditions : List TagEventCondition
deriving DecidableEq

/-- `ImageStreamStatus` from types.go: effective repository location and the
per-tag histories. -/
structure ImageStreamStatus where
  dockerImageRepository : String
  tags : List NamedTagEventList
deriving DecidableEq

/-- `SignatureConditionType` from types.go (a string). -/
abbrev SignatureConditionType := String

/-- `SignatureCondition` from types.go: type, status, last probe time, last
transition time, reason, message. Unlike `TagEventCondition` it carries a
`LastProbeTime` and no generation field. -/
structure SignatureCondition where
  type : SignatureConditionType
  status : ConditionStatus
  lastProbeTime : Time
  lastTransitionTime : Time
  reason : String
  message : String
deriving DecidableEq

/-- Model of `kapi.ObjectReference` restricted to the fields the tag
reconciliation uses: the kind and the referenced name. -/
structure ObjectReference where
  kind : String
  name : String
deriving DecidableEq

/-- `TagImportPolicy` from types.go. -/
structure TagImportPolicy where
  insecure : Bool
  scheduled : Bool
deriving DecidableEq

/-- `TagReference` from types.go: tag name, annotation map (modelled as an
association list), optional source reference (`From`), the reference-vs-import
boolean, the optional (`*int64`) client-observed generation, and the import
policy. -/
structure TagReference where
  name : String
  annots : List (String × String)
  fromRef : Option ObjectReference
  reference : Bool
  generation : Option Int
  importPolicy : TagImportPolicy
deriving DecidableEq

/-! ## TagEventHistory (spec §4.2) -/

/-- Modelled from the spec: the stale-generation error signalled by
`TagEventHistory.Append`; the behavioral code is absent from the given
source. -/
inductive AppendError where
  | staleGeneration
deriving DecidableEq

/-- Modelled from the spec: `TagEventHistory.Append(tag, event)` on one tag's
item list — prepends the event at index 0, rejecting an event whose
generation is lower than the current head's with a stale-generation error.
The behavioral code is absent from the given source. -/
def tagAppend (items : List TagEvent) (e : TagEvent) :
    Except AppendError (List TagEvent) :=
  match items with
  | [] => .ok [e]
  | head :: _ =>
      if e.generation < head.generation then .error .staleGeneration
      else .ok (e :: items)

/-- Modelled from the spec: `Latest(tag)` — O(1) lookup of the head of the
tag's event list. -/
def latest (items : List TagEvent) : Option TagEvent :=
  items.head?

/-- Modelled from the spec (§7): the caller-side translation of a
stale-generation rejection — the event is discarded and the history is kept
as it was. -/
def appendOrKeep (items : List TagEvent) (e : TagEvent) : List TagEvent :=
  match tagAppend items e with
  | .ok l => l
  | .error _ => items

/-- A sequence of `Append` operations, applied first element first; fails on
the first rejected event. -/
def appendAll (items : List TagEvent) : List TagEvent →
    Except AppendError (List TagEvent)
  | [] => .ok items
  | e :: es =>
      match tagAppend items e with
      | .ok items2 => appendAll items2 es
      | .error err => .error err

/-- The head of the history dominates the generation of every entry. -/
def headDominates (items : List TagEvent) : Prop :=
  ∀ e ∈ items, ∀ hd ∈ items.head?, e.generation ≤ hd.generation

/-! ## TagConditionTracker (spec §4.3) and SignatureTracker conditions (§4.4) -/

/-- Modelled from the spec: `TagConditionTracker.SetCondition` on one tag's
condition list — finds an existing condition of the same type; if the status
is unchanged, updates reason/message/generation only; if the status changed,
also updates the last-transition-time; if no condition of that type exists,
appends a new one. The behavioral code is absent from the given source. -/
def setTagCondition (conds : List TagEventCondition) (now : Time)
    (ctype : TagEventConditionType) (status : ConditionStatus)
    (reason message : String) (gen : Int) : List TagEventCondition :=
  match conds with
  | [] => [⟨ctype, status, now, reason, message, gen⟩]
  | c :: rest =>
      if c.type = ctype then
        if c.status = status then
          { c with reason := reason, message := message, generation := gen }
            :: rest
        else
          { c with status := status, lastTransitionTime := now, reason := reason, message := message, generation := gen } :: rest
      else c :: setTagCondition rest now ctype status reason message gen

/-- Modelled from the spec: the analogous condition update for an image
signature's `SignatureCondition` list — the same find/update/append protocol,
except that the record carries a last-probe-time (refreshed on every update)
and no generation field. The behavioral code is absent from the given
source. -/
def setSigCondition (conds : List SignatureCondition) (now : Time)
    (ctype : SignatureConditionType) (status : ConditionStatus)
    (reason message : String) : List SignatureCondition :=
  match conds with
  | [] => [⟨ctype, status, now, now, reason, message⟩]
  | c :: rest =>
      if c.type = ctype then
        if c.status = status then
          { c with lastProbeTime := now, reason := reason, message := message }
            :: rest
        else
          { c with status := status, lastProbeTime := now, lastTransitionTime := now, reason := reason, message := message } :: rest
      else c :: setSigCondition rest now ctype status reason message

/-- The first condition of a given type in a tag's condition list. -/
def getCondition : List TagEventCondition → TagEventConditionType →
    Option TagEventCondition
  | [], _ => none
  | c :: rest, ctype =>
      if c.type = ctype then some c else getCondition rest ctype

/-- The first condition of a given type in a signature's condition list. -/
def getSigCondition : List SignatureCondition → SignatureConditionType →
    Option SignatureCondition
  | [], _ => none
  | c :: rest, ctype =>
      if c.type = ctype then some c else getSigCondition rest ctype

/-! ## StreamReconciler (spec §4.1): status lookup, outcome folding,
generation assignment and reference resolution -/

/-- Lookup of a tag's `NamedTagEventList` in a status tag list. -/
def findTagIn : List NamedTagEventList → String → Option NamedTagEventList
  | [], _ => none
  | t :: rest, tag => if t.tag = tag then some t else findTagIn rest tag

/-- Lookup of a tag's `NamedTagEventList` in an `ImageStreamStatus`. -/
def findTag (s : ImageStreamStatus) (tag : String) :
    Option NamedTagEventList :=
  findTagIn s.tags tag

/-- The tag's history entry, or a fresh empty one (spec §3: entries are
created on first successful or failed import). -/
def tagOrEmpty (s : ImageStreamStatus) (tag : String) : NamedTagEventList :=
  (findTag s tag).getD ⟨tag, [], []⟩

/-- Replace a tag's entry in a status tag list, appending it when absent. -/
def setTagIn : List NamedTagEventList → String → NamedTagEventList →
    List NamedTagEventList
  | [], _, t2 => [t2]
  | t :: rest, tag, t2 =>
      if t.tag = tag then t2 :: rest else t :: setTagIn rest tag t2

/-- Replace a tag's entry in an `ImageStreamStatus`. -/
def setTag (s : ImageStreamStatus) (tag : String) (t2 : NamedTagEventList) :
    ImageStreamStatus :=
  { s with tags := setTagIn s.tags tag t2 }

/-- The tag's `TagEvent` sequence as recorded in status. -/
def itemsOf (s : ImageStreamStatus) (tag : String) : List TagEvent :=
  (tagOrEmpty s tag).items

/-- The tag's condition list as recorded in status. -/
def conditionsOf (s : ImageStreamStatus) (tag : String) :
    List TagEventCondition :=
  (tagOrEmpty s tag).conditions

/-- Modelled from the spec (§5, §8): the highest generation recorded for a
tag in status — across its latest `TagEvent` and its ImportSuccess
condition; an outcome below it is no longer of interest. The behavioral code
is absent from the given source. -/
def recordedGeneration (t : NamedTagEventList) : Int :=
  max
    (match t.items.head? with
      | some e => e.generation
      | none => 0)
    (match getCondition t.conditions .ImportSuccess with
      | some c => c.generation
      | none => 0)

/-- Modelled from the spec (§6): the import collaborator's structured result
for one (tag, generation) import-request. -/
inductive ImportOutcome where
  | success (dockerImageReference image : String)
  | failure (reason message : String)
deriving DecidableEq

/-- Modelled from the spec (§4.1): folding one import outcome into a tag's
entry — success appends a `TagEvent` (stale rejections are discarded per §7)
and sets/replaces the ImportSuccess condition to True with the matching
generation; failure appends no `TagEvent` and sets/replaces the
ImportSuccess condition to False with the failure's reason and message. The
behavioral code is absent from the given source. -/
def foldOutcome (t : NamedTagEventList) (gen : Int) (now : Time) :
    ImportOutcome → NamedTagEventList
  | .success ref img =>
      { t with items := appendOrKeep t.items ⟨now, ref, img, gen⟩, conditions := setTagCondition t.conditions now .ImportSuccess .condTrue "" "" gen }
  | .failure reason message =>
      { t with conditions := setTagCondition t.conditions now .ImportSuccess .condFalse reason message gen }

/-- Modelled from the spec (§4.1, §5): applying an import outcome keyed by
(tag, generation) to the stream status; an outcome for a generation strictly
below the tag's recorded generation is discarded as a no-op, not an error.
The behavioral code is absent from the given source. -/
def applyOutcome (s : ImageStreamStatus) (tag : String) (gen : Int)
    (now : Time) (o : ImportOutcome) : ImageStreamStatus :=
  let t := tagOrEmpty s tag
  if gen < recordedGeneration t then s
  else setTag s tag (foldOutcome t gen now o)

/-- The generation value a spec `TagReference` carries: legacy nil and 0 both
read as 0, meaning "recompute" (spec §3, §9). -/
def specGenerationValue : Option Int → Int
  | none => 0
  | some g => g

/-- The generation of the tag's latest recorded `TagEvent`, 0 when none. -/
def latestGeneration (s : ImageStreamStatus) (tag : String) : Int :=
  match (tagOrEmpty s tag).items.head? with
  | some e => e.generation
  | none => 0

/-- Modelled from the spec (§4.1): a spec tag is pending import when its
generation is nil or 0 or differs from the generation of the corresponding
status tag's latest `TagEvent`. The behavioral code is absent from the given
source. -/
def tagNeedsImport (s : ImageStreamStatus) (t : TagReference) : Bool :=
  decide (specGenerationValue t.generation = 0 ∨
    specGenerationValue t.generation ≠ latestGeneration s t.name)

/-- Modelled from the spec (§4.1): an import-request emitted by the
reconciler — the source reference, the insecure-transport flag, and the
assigned generation. -/
structure ImportRequest where
  tag : String
  fromRef : ObjectReference
  insecure : Bool
  generation : Int
deriving DecidableEq

/-- Modelled from the spec (§7): errors of transitive reference
resolution. -/
inductive ResolveError where
  | cyclicReference
  | missingReference
deriving DecidableEq

/-- Lookup of a spec tag by name. -/
def findSpecTag : List TagReference → String → Option TagReference
  | [], _ => none
  | t :: rest, name => if t.name = name then some t else findSpecTag rest name

/-- Modelled from the spec (§4.1): transitive resolution of a reference-type
tag with cycle detection — a chain that revisits an already-visited tag name
fails with a cyclic-reference error. Fuel bounds the recursion depth; callers
pass one more than the number of spec tags. The behavioral code is absent
from the given source. -/
def resolveTagReference (specTags : List TagReference) :
    Nat → List String → String → Except ResolveError String
  | 0, _, _ => .error .cyclicReference
  | fuel + 1, visited, name =>
      if name ∈ visited then .error .cyclicReference
      else
        match findSpecTag specTags name with
        | none => .error .missingReference
        | some t =>
            if t.reference then
              match t.fromRef with
              | some r =>
                  if r.kind = "ImageStreamTag" then
                    resolveTagReference specTags fuel (name :: visited) r.name
                  else .ok r.name
              | none => .error .missingReference
            else .ok name

/-- The condition reason string recorded for a failed resolution (§7). -/
def resolveFailureReason : ResolveError → String
  | .cyclicReference => "CyclicReference"
  | .missingReference => "NotFound"

/-- Modelled from the spec (§4.1): a successfully resolved in-stream
reference copies the target tag's latest `TagEvent` into the referring tag's
history; with no target history, nothing is recorded. The behavioral code is
absent from the given source. -/
def copyResolvedTag (s : ImageStreamStatus) (name target : String) :
    ImageStreamStatus :=
  match (tagOrEmpty s target).items.head? with
  | none => s
  | some e =>
      let t := tagOrEmpty s name
      setTag s name { t with items := appendOrKeep t.items e }

/-- Modelled from the spec (§4.1): reconciling one spec `TagReference`
against the status. A reference-type tag is resolved transitively (a failed
resolution is surfaced as a failed condition per §7, never as a new
`TagEvent`) and emits no import-request; a pending import tag is assigned
the next generation (the stream's generation counter + 1) and emits exactly
one import-request carrying the source reference, the insecure flag, and
the assigned generation. The behavioral code is absent from the given
source. -/
def reconcileTag (now : Time) (specTags : List TagReference) (counter : Int)
    (s : ImageStreamStatus) (t : TagReference) :
    Int × ImageStreamStatus × List ImportRequest :=
  if t.reference then
    match resolveTagReference specTags (specTags.length + 1) [] t.name with
    | .error err =>
        let tl := tagOrEmpty s t.name
        (counter, setTag s t.name { tl with conditions := setTagCondition tl.conditions now .ImportSuccess .condFalse (resolveFailureReason err) "" (specGenerationValue t.generation) }, [])
    | .ok target => (counter, copyResolvedTag s t.name target, [])
  else if tagNeedsImport s t then
    match t.fromRef with
    | some r =>
        (counter + 1, s, [⟨t.name, r, t.importPolicy.insecure, counter + 1⟩])
    | none => (counter, s, [])
  else (counter, s, [])

/-- Modelled from the spec (§4.1): one reconciliation pass over a list of
spec tags, threading the stream's generation counter and status and
concatenating the emitted import-requests. -/
def reconcileList (now : Time) (specTags : List TagReference) :
    Int → ImageStreamStatus → List TagReference →
      Int × ImageStreamStatus × List ImportRequest
  | counter, s, [] => (counter, s, [])
  | counter, s, t :: rest =>
      match reconcileTag now specTags counter s t with
      | (c1, s1, r1) =>
          match reconcileList now specTags c1 s1 rest with
          | (c2, s2, r2) => (c2, s2, r1 ++ r2)

/-- Modelled from the spec (§4.1): `Reconcile(spec, status)` with the
stream's generation counter. -/
def reconcile (now : Time) (counter : Int) (spec : List TagReference)
    (s : ImageStreamStatus) : Int × ImageStreamStatus × List ImportRequest :=
  reconcileList now spec counter s spec

/-- The number of conditions of type ImportSuccess in a condition list. -/
def importSuccessCount : List TagEventCondition → Nat
  | [] => 0
  | c :: rest =>
      (if c.type = .ImportSuccess then 1 else 0) + importSuccessCount rest

/-- Every reachable status keeps at most one ImportSuccess condition per
tag. -/
def atMostOneImportSuccess (s : ImageStreamStatus) : Prop :=
  ∀ t ∈ s.tags, importSuccessCount t.conditions ≤ 1

/-- The complete list of timestamp fields stored in a `TagEventCondition`:
the struct in types.go carries only `LastTransitionTime` (no last-probe-time
field). -/
def tagConditionTimes (c : TagEventCondition) : List Time :=
  [c.lastTransitionTime]

/-- The complete list of timestamp fields stored in a `SignatureCondition`:
`LastProbeTime` followed by `LastTransitionTime`. -/
def sigConditionTimes (c : SignatureCondition) : List Time :=
  [c.lastProbeTime, c.lastTransitionTime]

/-- A successful `tagAppend` always prepends the event. -/
theorem tagAppend_ok_eq {items l : List TagEvent} {e : TagEvent}
    (h : tagAppend items e = .ok l) : l = e :: items := by
  cases items with
  | nil =>
      simp [tagAppend] at h
      simp [h]
  | cons head rest =>
      simp only [tagAppend] at h
      split at h
      · exact absurd h (by simp)
      · simpa using h.symm

/-- A successful `tagAppend` onto a nonempty history implies the new
generation is at least the head's. -/
theorem tagAppend_ok_ge {head : TagEvent} {rest l : List TagEvent}
    {e : TagEvent} (h : tagAppend (head :: rest) e = .ok l) :
    head.generation ≤ e.generation := by
  simp only [tagAppend] at h
  split at h
  · exact absurd h (by simp)
  · omega

/-- A successful `tagAppend` preserves `headDominates`. -/
theorem tagAppend_preserves_headDominates {items l : List TagEvent}
    {e : TagEvent} (h : tagAppend items e = .ok l)
    (hdom : headDominates items) : headDominates l := by
  have hl := tagAppend_ok_eq h
  subst hl
  intro x hx hd hhd
  simp only [List.head?_cons, Option.mem_def, Option.some.injEq] at hhd
  subst hhd
  rcases List.mem_cons.mp hx with hx | hx
  · simp [hx]
  · cases items with
    | nil => simp at hx
    | cons head rest =>
        have h1 : x.generation ≤ head.generation := by
          have := hdom x hx head (by simp)
          exact this
        have h2 := tagAppend_ok_ge h
        omega

/-- A successful `appendAll` preserves `headDominates`. -/
theorem appendAll_preserves_headDominates {items items2 : List TagEvent}
    {es : List TagEvent} (h : appendAll items es = .ok items2)
    (hdom : headDominates items) : headDominates items2 := by
  induction es generalizing items with
  | nil =>
      simp only [appendAll] at h
      have : items = items2 := by simpa using h
      subst this; exact hdom
  | cons e es ih =>
      simp only [appendAll] at h
      cases happ : tagAppend items e with
      | ok l =>
          rw [happ] at h
          exact ih h (tagAppend_preserves_headDominates happ hdom)
      | error err =>
          rw [happ] at h
          exact absurd h (by simp)

/-- A successful `appendAll` concatenates the reversed events on the front. -/
theorem appendAll_ok_eq {items items2 : List TagEvent}
    {es : List TagEvent} (h : appendAll items es = .ok items2) :
    items2 = es.reverse ++ items := by
  induction es generalizing items with
  | nil =>
      simp only [appendAll] at h
      simpa using h.symm
  | cons e es ih =>
      simp only [appendAll] at h
      cases happ : tagAppend items e with
      | ok l =>
          rw [happ] at h
          have hl := tagAppend_ok_eq happ
          subst hl
          have := ih h
          simpa using this
      | error err =>
          rw [happ] at h
          exact absurd h (by simp)

/-- `setTagCondition` with an unchanged status rewrites only
reason/message/generation of the stored condition. -/
theorem setTagCondition_same_status {conds : List TagEventCondition}
    {ctype : TagEventConditionType} {c : TagEventCondition}
    (hfind : getCondition conds ctype = some c) {status : ConditionStatus}
    (hst : c.status = status) (now : Time) (reason message : String)
    (gen : Int) :
    getCondition (setTagCondition conds now ctype status reason message gen)
        ctype =
      some { c with reason := reason, message := message, generation := gen } := by
  induction conds with
  | nil => simp [getCondition] at hfind
  | cons d rest ih =>
      have hd : d.type = ctype := by cases d.type; cases ctype; rfl
      have hdc : d = c := by
        simpa [getCondition, hd] using hfind
      subst hdc
      simp [setTagCondition, getCondition, hd, hst]

/-- `setTagCondition` with a changed status also rewrites the
last-transition-time. -/
theorem setTagCondition_changed_status {conds : List TagEventCondition}
    {ctype : TagEventConditionType} {c : TagEventCondition}
    (hfind : getCondition conds ctype = some c) {status : ConditionStatus}
    (hst : ¬ c.status = status) (now : Time) (reason message : String)
    (gen : Int) :
    getCondition (setTagCondition conds now ctype status reason message gen)
        ctype =
      some { c with status := status, lastTransitionTime := now, reason := reason, message := message, generation := gen } := by
  induction conds with
  | nil => simp [getCondition] at hfind
  | cons d rest ih =>
      have hd : d.type = ctype := by cases d.type; cases ctype; rfl
      have hdc : d = c := by
        simpa [getCondition, hd] using hfind
      subst hdc
      simp [setTagCondition, getCondition, hd, hst]

/-- `setTagCondition` appends a new condition when no condition of the type
exists. -/
theorem setTagCondition_absent {conds : List TagEventCondition}
    {ctype : TagEventConditionType}
    (hfind : getCondition conds ctype = none) (now : Time)
    (status : ConditionStatus) (reason message : String) (gen : Int) :
    setTagCondition conds now ctype status reason message gen =
      conds ++ [⟨ctype, status, now, reason, message, gen⟩] := by
  induction conds with
  | nil => simp [setTagCondition]
  | cons d rest ih =>
      have hd : d.type = ctype := by cases d.type; cases ctype; rfl
      simp [getCondition, hd] at hfind

/-- `setSigCondition` with an unchanged status rewrites only
last-probe-time/reason/message of the stored condition. -/
theorem setSigCondition_same_status {conds : List SignatureCondition}
    {ctype : SignatureConditionType} {c : SignatureCondition}
    (hfind : getSigCondition conds ctype = some c) {status : ConditionStatus}
    (hst : c.status = status) (now : Time) (reason message : String) :
    getSigCondition (setSigCondition conds now ctype status reason message)
        ctype =
      some { c with lastProbeTime := now, reason := reason, message := message } := by
  induction conds with
  | nil => simp [getSigCondition] at hfind
  | cons d rest ih =>
      by_cases hd : d.type = ctype
      · have hdc : d = c := by
          simpa [getSigCondition, hd] using hfind
        subst hdc
        simp [setSigCondition, getSigCondition, hd, hst]
      · have hfind2 : getSigCondition rest ctype = some c := by
          simpa [getSigCondition, hd] using hfind
        simp [setSigCondition, getSigCondition, hd, ih hfind2]

/-- `setSigCondition` with a changed status also rewrites the
last-transition-time. -/
theorem setSigCondition_changed_status {conds : List SignatureCondition}
    {ctype : SignatureConditionType} {c : SignatureCondition}
    (hfind : getSigCondition conds ctype = some c) {status : ConditionStatus}
    (hst : ¬ c.status = status) (now : Time) (reason message : String) :
    getSigCondition (setSigCondition conds now ctype status reason message)
        ctype =
      some { c with status := status, lastProbeTime := now, lastTransitionTime := now, reason := reason, message := message } := by
  induction conds with
  | nil => simp [getSigCondition] at hfind
  | cons d rest ih =>
      by_cases hd : d.type = ctype
      · have hdc : d = c := by
          simpa [getSigCondition, hd] using hfind
        subst hdc
        simp [setSigCondition, getSigCondition, hd, hst]
      · have hfind2 : getSigCondition rest ctype = some c := by
          simpa [getSigCondition, hd] using hfind
        simp [setSigCondition, getSigCondition, hd, ih hfind2]

/-- `setSigCondition` appends a new condition when no condition of the type
exists. -/
theorem setSigCondition_absent {conds : List SignatureCondition}
    {ctype : SignatureConditionType}
    (hfind : getSigCondition conds ctype = none) (now : Time)
    (status : ConditionStatus) (reason message : String) :
    setSigCondition conds now ctype status reason message =
      conds ++ [⟨ctype, status, now, now, reason, message⟩] := by
  induction conds with
  | nil => simp [setSigCondition]
  | cons d rest ih =>
      by_cases hd : d.type = ctype
      · simp [getSigCondition, hd] at hfind
      · have hfind2 : getSigCondition rest ctype = none := by
          simpa [getSigCondition, hd] using hfind
        simp [setSigCondition, hd, ih hfind2]

/-- `findTagIn` returns an entry carrying the looked-up tag name. -/
theorem findTagIn_eq_some_tag {tags : List NamedTagEventList} {tag : String}
    {u : NamedTagEventList} (h : findTagIn tags tag = some u) : u.tag = tag := by
  induction tags with
  | nil => simp [findTagIn] at h
  | cons t rest ih =>
      by_cases ht : t.tag = tag
      · have : t = u := by simpa [findTagIn, ht] using h
        subst this; exact ht
      · exact ih (by simpa [findTagIn, ht] using h)

/-- `findTagIn` returns a member of the list. -/
theorem findTagIn_mem {tags : List NamedTagEventList} {tag : String}
    {u : NamedTagEventList} (h : findTagIn tags tag = some u) : u ∈ tags := by
  induction tags with
  | nil => simp [findTagIn] at h
  | cons t rest ih =>
      by_cases ht : t.tag = tag
      · have : t = u := by simpa [findTagIn, ht] using h
        subst this; exact List.mem_cons_self _ _
      · exact List.mem_cons_of_mem _ (ih (by simpa [findTagIn, ht] using h))

/-- `tagOrEmpty` carries the looked-up tag name. -/
theorem tagOrEmpty_tag (s : ImageStreamStatus) (tag : String) :
    (tagOrEmpty s tag).tag = tag := by
  unfold tagOrEmpty findTag
  cases h : findTagIn s.tags tag with
  | none => simp
  | some u => simpa using findTagIn_eq_some_tag h

/-- Looking up the replaced tag after `setTagIn` yields the replacement. -/
theorem findTagIn_setTagIn_self {tags : List NamedTagEventList}
    {tag : String} {t2 : NamedTagEventList} (h2 : t2.tag = tag) :
    findTagIn (setTagIn tags tag t2) tag = some t2 := by
  induction tags with
  | nil => simp [setTagIn, findTagIn, h2]
  | cons t rest ih =>
      by_cases ht : t.tag = tag
      · simp [setTagIn, findTagIn, ht, h2]
      · simp [setTagIn, findTagIn, ht, ih]

/-- Looking up any other tag after `setTagIn` is unchanged. -/
theorem findTagIn_setTagIn_other {tags : List NamedTagEventList}
    {tag tag2 : String} {t2 : NamedTagEventList} (hne : tag2 ≠ tag)
    (h2 : t2.tag = tag) :
    findTagIn (setTagIn tags tag t2) tag2 = findTagIn tags tag2 := by
  have ht2 : ¬ t2.tag = tag2 := fun h => hne (h.symm.trans h2)
  have hne2 : ¬ tag = tag2 := fun h => hne h.symm
  induction tags with
  | nil => simp [setTagIn, findTagIn, ht2]
  | cons t rest ih =>
      by_cases ht : t.tag = tag
      · have htt : ¬ t.tag = tag2 := fun h => hne (h.symm.trans ht)
        simp [setTagIn, findTagIn, ht, ht2, htt, hne2]
      · by_cases htt : t.tag = tag2
        · simp [setTagIn, findTagIn, ht, htt, hne]
        · simp [setTagIn, findTagIn, ht, htt, ih]

/-- Every entry after `setTagIn` is an old entry or the replacement. -/
theorem setTagIn_mem {tags : List NamedTagEventList} {tag : String}
    {t2 u : NamedTagEventList} (h : u ∈ setTagIn tags tag t2) :
    u ∈ tags ∨ u = t2 := by
  induction tags with
  | nil =>
      right
      simpa [setTagIn] using h
  | cons t rest ih =>
      by_cases ht : t.tag = tag
      · rw [setTagIn] at h
        simp only [ht, if_pos] at h
        rcases List.mem_cons.mp h with h | h
        · right; exact h
        · left; exact List.mem_cons_of_mem _ h
      · rw [setTagIn] at h
        simp only [ht, if_neg, not_false_iff] at h
        rcases List.mem_cons.mp h with h | h
        · left; simp [h]
        · rcases ih h with h | h
          · left; exact List.mem_cons_of_mem _ h
          · right; exact h

/-- `tagOrEmpty` after replacing the same tag yields the replacement. -/
theorem tagOrEmpty_setTag_self {s : ImageStreamStatus} {tag : String}
    {t2 : NamedTagEventList} (h2 : t2.tag = tag) :
    tagOrEmpty (setTag s tag t2) tag = t2 := by
  unfold tagOrEmpty findTag setTag
  simp [findTagIn_setTagIn_self h2]

/-- `tagOrEmpty` of any other tag is unchanged by `setTag`. -/
theorem tagOrEmpty_setTag_other {s : ImageStreamStatus} {tag tag2 : String}
    {t2 : NamedTagEventList} (hne : tag2 ≠ tag) (h2 : t2.tag = tag) :
    tagOrEmpty (setTag s tag t2) tag2 = tagOrEmpty s tag2 := by
  unfold tagOrEmpty findTag setTag
  simp [findTagIn_setTagIn_other hne h2]

/-- `getCondition` distributes over an append whose left part lacks the
type. -/
theorem getCondition_append_none {conds : List TagEventCondition}
    {ctype : TagEventConditionType} (h : getCondition conds ctype = none)
    (l : List TagEventCondition) :
    getCondition (conds ++ l) ctype = getCondition l ctype := by
  induction conds with
  | nil => simp
  | cons c rest ih =>
      have hc : c.type = ctype := by cases c.type; cases ctype; rfl
      simp [getCondition, hc] at h

/-- After any `setTagCondition`, the stored condition of the set type carries
the new status, reason, message and generation. -/
theorem getCondition_setTagCondition (conds : List TagEventCondition)
    (now : Time) (ctype : TagEventConditionType) (status : ConditionStatus)
    (reason message : String) (gen : Int) :
    ∃ c2, getCondition (setTagCondition conds now ctype status reason message gen)
          ctype = some c2 ∧
      c2.status = status ∧ c2.reason = reason ∧ c2.message = message ∧
        c2.generation = gen := by
  cases hfind : getCondition conds ctype with
  | none =>
      rw [setTagCondition_absent hfind, getCondition_append_none hfind]
      exact ⟨⟨ctype, status, now, reason, message, gen⟩,
        by simp [getCondition], rfl, rfl, rfl, rfl⟩
  | some c =>
      by_cases hst : c.status = status
      · exact ⟨_, setTagCondition_same_status hfind hst now reason message gen,
          hst, rfl, rfl, rfl⟩
      · exact ⟨_, setTagCondition_changed_status hfind hst now reason message gen,
          rfl, rfl, rfl, rfl⟩

/-- `setTagCondition` keeps the ImportSuccess count at most one. -/
theorem importSuccessCount_setTagCondition {conds : List TagEventCondition}
    (hle : importSuccessCount conds ≤ 1) (now : Time)
    (ctype : TagEventConditionType) (status : ConditionStatus)
    (reason message : String) (gen : Int) :
    importSuccessCount (setTagCondition conds now ctype status reason message gen)
      ≤ 1 := by
  cases conds with
  | nil =>
      cases ctype
      simp [setTagCondition, importSuccessCount]
  | cons c rest =>
      have hc : c.type = ctype := by cases c.type; cases ctype; rfl
      by_cases hst : c.status = status
      · have hres : setTagCondition (c :: rest) now ctype status reason message gen =
            { c with reason := reason, message := message, generation := gen } :: rest := by
          simp [setTagCondition, hc, hst]
        rw [hres]
        simpa [importSuccessCount] using hle
      · have hres : setTagCondition (c :: rest) now ctype status reason message gen =
            { c with status := status, lastTransitionTime := now, reason := reason, message := message, generation := gen } :: rest := by
          simp [setTagCondition, hc, hst]
        rw [hres]
        simpa [importSuccessCount] using hle

/-- `setTagCondition` over a list already holding the type replaces in place:
the length is unchanged. -/
theorem setTagCondition_length_of_found {conds : List TagEventCondition}
    {ctype : TagEventConditionType} {c : TagEventCondition}
    (hfind : getCondition conds ctype = some c) (now : Time)
    (status : ConditionStatus) (reason message : String) (gen : Int) :
    (setTagCondition conds now ctype status reason message gen).length =
      conds.length := by
  cases conds with
  | nil => simp [getCondition] at hfind
  | cons d rest =>
      have hd : d.type = ctype := by cases d.type; cases ctype; rfl
      by_cases hst : d.status = status
      · simp [setTagCondition, hd, hst]
      · simp [setTagCondition, hd, hst]

/-- C3: for both condition-update operations (`SetCondition` on a
`TagEventCondition` list and the analogous update of a `SignatureCondition`
list): with an existing condition of the same type and an unchanged status,
the stored last-transition-time is kept and only reason, message, generation
and — where the field exists — last-probe-time are rewritten; with a changed
status the last-transition-time is rewritten to the update time; with no
condition of the type present, a new one is appended. -/
theorem setCondition_contract (conds : List TagEventCondition)
    (sconds : List SignatureCondition) (now : Time)
    (ctype : TagEventConditionType) (sctype : SignatureConditionType)
    (status : ConditionStatus) (reason message : String) (gen : Int) :
    (∀ c, getCondition conds ctype = some c → c.status = status →
      getCondition (setTagCondition conds now ctype status reason message gen)
          ctype =
        some { c with reason := reason, message := message, generation := gen }) ∧
    (∀ c, getCondition conds ctype = some c → ¬ c.status = status →
      getCondition (setTagCondition conds now ctype status reason message gen)
          ctype =
        some { c with status := status, lastTransitionTime := now, reason := reason, message := message, generation := gen }) ∧
    (getCondition conds ctype = none →
      setTagCondition conds now ctype status reason message gen =
        conds ++ [⟨ctype, status, now, reason, message, gen⟩]) ∧
    (∀ c, getSigCondition sconds sctype = some c → c.status = status →
      getSigCondition (setSigCondition sconds now sctype status reason message)
          sctype =
        some { c with lastProbeTime := now, reason := reason, message := message }) ∧
    (∀ c, getSigCondition sconds sctype = some c → ¬ c.status = status →
      getSigCondition (setSigCondition sconds now sctype status reason message)
          sctype =
        some { c with status := status, lastProbeTime := now, lastTransitionTime := now, reason := reason, message := message }) ∧
    (getSigCondition sconds sctype = none →
      setSigCondition sconds now sctype status reason message =
        sconds ++ [⟨sctype, status, now, now, reason, message⟩]) := by
  refine ⟨?_, ?_, ?_, ?_, ?_, ?_⟩
  · intro c hfind hst
    exact setTagCondition_same_status hfind hst now reason message gen
  · intro c hfind hst
    exact setTagCondition_changed_status hfind hst now reason message gen
  · intro hfind
    exact setTagCondition_absent hfind now status reason message gen
  · intro c hfind hst
    exact setSigCondition_same_status hfind hst now reason message
  · intro c hfind hst
    exact setSigCondition_changed_status hfind hst now reason message
  · intro hfind
    exact setSigCondition_absent hfind now status reason message

/-- Witness for `setCondition_contract`: an unchanged-status update of a
stored ImportSuccess tag condition keeps its transition time 4 while
rewriting reason, message and generation. -/
theorem setCondition_contract_witness :
    getCondition
        (setTagCondition [⟨.ImportSuccess, .condTrue, 4, "a", "b", 1⟩] 9
          .ImportSuccess .condTrue "r" "m" 2) .ImportSuccess =
      some ⟨.ImportSuccess, .condTrue, 4, "r", "m", 2⟩ :=
  (setCondition_contract [⟨.ImportSuccess, .condTrue, 4, "a", "b", 1⟩] [] 9
      .ImportSuccess "Verified" .condTrue "r" "m" 2).1
    ⟨.ImportSuccess, .condTrue, 4, "a", "b", 1⟩ rfl rfl

/-- C9: a `TagEventCondition` stores `LastTransitionTime` as its only
timestamp (the struct, unlike `SignatureCondition`, has no last-probe-time
field), so an update of a tag's ImportSuccess condition with unchanged status
leaves every stored timestamp unchanged; by contrast the same-status update
of a `SignatureCondition` does change a stored timestamp (its
last-probe-time). -/
theorem tagCondition_timestamps_frozen :
    (∀ (conds : List TagEventCondition) (ctype : TagEventConditionType)
        (c : TagEventCondition) (status : ConditionStatus) (now : Time)
        (reason message : String) (gen : Int),
      getCondition conds ctype = some c → c.status = status →
      ∃ c2, getCondition
          (setTagCondition conds now ctype status reason message gen) ctype =
            some c2 ∧
        tagConditionTimes c2 = tagConditionTimes c) ∧
    (getSigCondition
        (setSigCondition [⟨"t", .condTrue, 0, 0, "", ""⟩] 5 "t" .condTrue "r"
          "m") "t" =
        some ⟨"t", .condTrue, 5, 0, "r", "m"⟩ ∧
      sigConditionTimes ⟨"t", .condTrue, 5, 0, "r", "m"⟩ ≠
        sigConditionTimes ⟨"t", .condTrue, 0, 0, "", ""⟩) := by
  refine ⟨?_, by decide, by decide⟩
  intro conds ctype c status now reason message gen hfind hst
  exact ⟨_, setTagCondition_same_status hfind hst now reason message gen, rfl⟩

/-- Witness for `tagCondition_timestamps_frozen`: the same-status update at
time 9 of a tag condition stored with transition time 4 keeps the timestamp
list `[4]`. -/
theorem tagCondition_timestamps_frozen_witness :
    ∃ c2, getCondition
        (setTagCondition [⟨.ImportSuccess, .condFalse, 4, "a", "b", 1⟩] 9
          .ImportSuccess .condFalse "r" "m" 2) .ImportSuccess = some c2 ∧
      tagConditionTimes c2 =
        tagConditionTimes ⟨.ImportSuccess, .condFalse, 4, "a", "b", 1⟩ :=
  tagCondition_timestamps_frozen.1 [⟨.ImportSuccess, .condFalse, 4, "a", "b", 1⟩]
    .ImportSuccess ⟨.ImportSuccess, .condFalse, 4, "a", "b", 1⟩ .condFalse 9
    "r" "m" 2 rfl rfl

/-- C1: for every tag, after N successful `TagEventHistory.Append` operations,
`Latest(tag)` returns the Nth (most recently) appended `TagEvent`, that event
occupies index 0 of the tag's `NamedTagEventList.Items`, and its `Generation`
is ≥ the `Generation` of every previously appended event for that tag. -/
theorem latest_after_appends (es items2 : List TagEvent) (last : TagEvent)
    (hok : appendAll [] es = .ok items2) (hlast : es.getLast? = some last) :
    latest items2 = some last ∧ items2.head? = some last ∧
      ∀ e ∈ es, e.generation ≤ last.generation := by
  have heq : items2 = es.reverse := by
    simpa using appendAll_ok_eq hok
  have hhead : items2.head? = some last := by
    rw [heq, List.head?_reverse, hlast]
  refine ⟨hhead, hhead, ?_⟩
  intro e he
  have hdom : headDominates items2 :=
    appendAll_preserves_headDominates hok (by intro x hx; simp at hx)
  have hmem : e ∈ items2 := by
    rw [heq, List.mem_reverse]; exact he
  exact hdom e hmem last hhead

/-- Witness for `latest_after_appends` at the two-event history
(generations 1 then 2). -/
theorem latest_after_appends_witness :
    latest [⟨1, "r2", "i2", 2⟩, ⟨0, "r1", "i1", 1⟩] = some ⟨1, "r2", "i2", 2⟩ ∧
      ([⟨1, "r2", "i2", 2⟩, ⟨0, "r1", "i1", 1⟩] : List TagEvent).head? =
        some ⟨1, "r2", "i2", 2⟩ ∧
      ∀ e ∈ [(⟨0, "r1", "i1", 1⟩ : TagEvent), ⟨1, "r2", "i2", 2⟩],
        e.generation ≤ (2 : Int) :=
  latest_after_appends [⟨0, "r1", "i1", 1⟩, ⟨1, "r2", "i2", 2⟩]
    [⟨1, "r2", "i2", 2⟩, ⟨0, "r1", "i1", 1⟩] ⟨1, "r2", "i2", 2⟩ rfl rfl

/-- C2: for every tag whose history head has generation g, `Append` with an
event whose generation is strictly lower than g fails with the
stale-generation error, and the tag's `TagEvent` sequence is left exactly as
it was before the call. -/
theorem append_stale_rejected (head : TagEvent) (rest : List TagEvent)
    (e : TagEvent) (hlt : e.generation < head.generation) :
    tagAppend (head :: rest) e = .error .staleGeneration ∧
      appendOrKeep (head :: rest) e = head :: rest := by
  refine ⟨?_, ?_⟩
  · simp [tagAppend, hlt]
  · simp [appendOrKeep, tagAppend, hlt]

/-- Witness for `append_stale_rejected`: head at generation 5, incoming event
at generation 3. -/
theorem append_stale_rejected_witness :
    tagAppend [⟨0, "r", "i", 5⟩] ⟨1, "r2", "i2", 3⟩ =
        .error .staleGeneration ∧
      appendOrKeep [⟨0, "r", "i", 5⟩] ⟨1, "r2", "i2", 3⟩ = [⟨0, "r", "i", 5⟩] :=
  append_stale_rejected ⟨0, "r", "i", 5⟩ [] ⟨1, "r2", "i2", 3⟩ (by decide)

/-- C4: a spec tag whose generation is nil or 0 or differs from the
generation of the corresponding status tag's latest `TagEvent` is pending
import: `Reconcile` assigns it the stream's generation counter + 1 and emits
exactly one import-request carrying the source reference, the insecure flag
and the assigned generation; in the concrete scenario with the counter at 5
and a spec tag with no generation set, it assigns generation 6 and emits one
import-request, and folding the success outcome yields Items[0] with
generation 6 and an ImportSuccess condition with status True and
generation 6. -/
theorem pending_import_assigns_next_generation :
    (∀ (now : Time) (specTags : List TagReference) (counter : Int)
        (s : ImageStreamStatus) (t : TagReference) (r : ObjectReference),
      t.reference = false → t.fromRef = some r →
      (specGenerationValue t.generation = 0 ∨
        specGenerationValue t.generation ≠ latestGeneration s t.name) →
      reconcileTag now specTags counter s t =
        (counter + 1, s, [⟨t.name, r, t.importPolicy.insecure, counter + 1⟩])) ∧
      (reconcile 0 5 [⟨"latest", [], some ⟨"DockerImage", "example.com/app"⟩, false, none, ⟨false, false⟩⟩] ⟨"", []⟩ =
          (6, ⟨"", []⟩, [⟨"latest", ⟨"DockerImage", "example.com/app"⟩, false, 6⟩]) ∧
        itemsOf (applyOutcome ⟨"", []⟩ "latest" 6 1 (.success "example.com/app@sha256:abc" "sha256:abc")) "latest" =
          [⟨1, "example.com/app@sha256:abc", "sha256:abc", 6⟩] ∧
        getCondition (conditionsOf (applyOutcome ⟨"", []⟩ "latest" 6 1 (.success "example.com/app@sha256:abc" "sha256:abc")) "latest") .ImportSuccess =
          some ⟨.ImportSuccess, .condTrue, 1, "", "", 6⟩) := by
  constructor
  · intro now specTags counter s t r h1 h2 h3
    have hneed : tagNeedsImport s t = true := decide_eq_true h3
    simp [reconcileTag, h1, hneed, h2]
  · exact ⟨by decide, by decide, by decide⟩

/-- Witness for `pending_import_assigns_next_generation`: the "latest" tag
with no generation set, counter at 5, gets generation 6 and one request. -/
theorem pending_import_assigns_next_generation_witness :
    reconcileTag 0 [] 5 ⟨"", []⟩ ⟨"latest", [], some ⟨"DockerImage", "example.com/app"⟩, false, none, ⟨false, false⟩⟩ =
      (6, ⟨"", []⟩, [⟨"latest", ⟨"DockerImage", "example.com/app"⟩, false, 6⟩]) :=
  pending_import_assigns_next_generation.1 0 [] 5 ⟨"", []⟩
    ⟨"latest", [], some ⟨"DockerImage", "example.com/app"⟩, false, none, ⟨false, false⟩⟩
    ⟨"DockerImage", "example.com/app"⟩ rfl rfl (Or.inl rfl)

/-- C5 (amended): folding a failed import outcome for a tag at generation g
that is not stale (g is at least the tag's recorded generation) leaves the
tag's `TagEvent` sequence exactly unchanged and sets or replaces the tag's
ImportSuccess condition to status False with the failure's reason and
message and generation g. (The unconditional claim fails on a stale g; see
the counterexample.) -/
theorem failure_outcome_frame (s : ImageStreamStatus) (tag : String)
    (gen : Int) (now : Time) (reason message : String)
    (h : recordedGeneration (tagOrEmpty s tag) ≤ gen) :
    itemsOf (applyOutcome s tag gen now (.failure reason message)) tag =
        itemsOf s tag ∧
      ∃ c, getCondition
          (conditionsOf (applyOutcome s tag gen now (.failure reason message)) tag)
            .ImportSuccess = some c ∧
        c.status = .condFalse ∧ c.reason = reason ∧ c.message = message ∧
          c.generation = gen := by
  have hnot : ¬ gen < recordedGeneration (tagOrEmpty s tag) := not_lt.mpr h
  have happ : applyOutcome s tag gen now (.failure reason message) =
      setTag s tag (foldOutcome (tagOrEmpty s tag) gen now (.failure reason message)) := by
    simp [applyOutcome, hnot]
  have htag : (foldOutcome (tagOrEmpty s tag) gen now (.failure reason message)).tag = tag := by
    simp [foldOutcome, tagOrEmpty_tag]
  rw [happ]
  constructor
  · simp only [itemsOf]
    rw [tagOrEmpty_setTag_self htag]
    simp [foldOutcome, itemsOf]
  · simp only [conditionsOf]
    rw [tagOrEmpty_setTag_self htag]
    simp only [foldOutcome]
    exact getCondition_setTagCondition _ now _ _ reason message gen

/-- Witness for `failure_outcome_frame`: a failure for tag "v1" at
generation 3 against a tag with no recorded history. -/
theorem failure_outcome_frame_witness :
    itemsOf (applyOutcome ⟨"", []⟩ "v1" 3 7 (.failure "NotFound" "msg")) "v1" =
        itemsOf ⟨"", []⟩ "v1" ∧
      ∃ c, getCondition
          (conditionsOf (applyOutcome ⟨"", []⟩ "v1" 3 7 (.failure "NotFound" "msg")) "v1")
            .ImportSuccess = some c ∧
        c.status = .condFalse ∧ c.reason = "NotFound" ∧ c.message = "msg" ∧
          c.generation = 3 :=
  failure_outcome_frame ⟨"", []⟩ "v1" 3 7 "NotFound" "msg" (by decide)

/-- C5 counterexample: with generation 3 already recorded for tag "v1", a
failed outcome at the strictly lower generation 2 is discarded, so no
ImportSuccess condition with status False and generation 2 is stored —
contrary to the claim's unconditional quantification over g. -/
theorem failure_outcome_frame_counterexample :
    ¬ ∃ c, getCondition
        (conditionsOf
          (applyOutcome ⟨"", [⟨"v1", [⟨0, "r", "i", 3⟩], []⟩]⟩ "v1" 2 7
            (.failure "NotFound" "msg")) "v1") .ImportSuccess = some c ∧
      c.status = .condFalse ∧ c.generation = 2 := by
  rintro ⟨c, hc, -, -⟩
  have h0 : getCondition
      (conditionsOf
        (applyOutcome ⟨"", [⟨"v1", [⟨0, "r", "i", 3⟩], []⟩]⟩ "v1" 2 7
          (.failure "NotFound" "msg")) "v1") .ImportSuccess = none := by
    decide
  rw [h0] at hc
  exact Option.noConfusion hc

/-- C6: every operation recording an import outcome preserves the invariant
that a tag's condition list holds at most one ImportSuccess condition, and
when a condition of the type already exists `setTagCondition` replaces it in
place — the list length is unchanged, nothing is appended. -/
theorem import_success_replaced_not_appended (s : ImageStreamStatus)
    (tag : String) (gen : Int) (now : Time) (o : ImportOutcome)
    (hinv : atMostOneImportSuccess s) :
    atMostOneImportSuccess (applyOutcome s tag gen now o) ∧
      ∀ (conds : List TagEventCondition) (c : TagEventCondition)
          (status : ConditionStatus) (reason message : String),
        getCondition conds .ImportSuccess = some c →
        (setTagCondition conds now .ImportSuccess status reason message gen).length
          = conds.length := by
  constructor
  · by_cases hstale : gen < recordedGeneration (tagOrEmpty s tag)
    · simpa [applyOutcome, hstale] using hinv
    · have happ : applyOutcome s tag gen now o =
          setTag s tag (foldOutcome (tagOrEmpty s tag) gen now o) := by
        simp [applyOutcome, hstale]
      rw [happ]
      intro u hu
      simp only [setTag] at hu
      rcases setTagIn_mem hu with hmem | heq
      · exact hinv u hmem
      · subst heq
        have hbase : importSuccessCount (tagOrEmpty s tag).conditions ≤ 1 := by
          unfold tagOrEmpty findTag
          cases hf : findTagIn s.tags tag with
          | none => simp [importSuccessCount]
          | some v => simpa using hinv v (findTagIn_mem hf)
        cases o with
        | success ref img =>
            simpa [foldOutcome] using
              importSuccessCount_setTagCondition hbase now _ _ "" "" gen
        | failure reason message =>
            simpa [foldOutcome] using
              importSuccessCount_setTagCondition hbase now _ _ reason message gen
  · intro conds c status reason message hfind
    exact setTagCondition_length_of_found hfind now status reason message gen

/-- Witness for `import_success_replaced_not_appended`: a success outcome at
generation 2 replaces the stored False condition of tag "v1". -/
theorem import_success_replaced_not_appended_witness :
    atMostOneImportSuccess
        (applyOutcome ⟨"", [⟨"v1", [], [⟨.ImportSuccess, .condFalse, 1, "e", "m", 1⟩]⟩]⟩ "v1" 2 5 (.success "r" "i")) ∧
      ∀ (conds : List TagEventCondition) (c : TagEventCondition)
          (status : ConditionStatus) (reason message : String),
        getCondition conds .ImportSuccess = some c →
        (setTagCondition conds 5 .ImportSuccess status reason message 2).length
          = conds.length :=
  import_success_replaced_not_appended
    ⟨"", [⟨"v1", [], [⟨.ImportSuccess, .condFalse, 1, "e", "m", 1⟩]⟩]⟩ "v1" 2 5
    (.success "r" "i")
    (by decide :
      ∀ t ∈ [(⟨"v1", [], [⟨.ImportSuccess, .condFalse, 1, "e", "m", 1⟩]⟩ : NamedTagEventList)],
        importSuccessCount t.conditions ≤ 1)

/-- C7: a reference-type tag whose transitive resolution reports a
cyclic-reference error (the chain revisits an already-visited tag name)
produces no import-request, and the reconciliation of that tag appends no
`TagEvent` to any tag in the stream — only a failed condition is surfaced. -/
theorem cyclic_reference_rejected (now : Time) (specTags : List TagReference)
    (counter : Int) (s : ImageStreamStatus) (t : TagReference)
    (h1 : t.reference = true)
    (h2 : resolveTagReference specTags (specTags.length + 1) [] t.name =
      .error .cyclicReference) :
    (reconcileTag now specTags counter s t).2.2 = [] ∧
      ∀ tag, itemsOf (reconcileTag now specTags counter s t).2.1 tag =
        itemsOf s tag := by
  have hres : reconcileTag now specTags counter s t =
      (counter, setTag s t.name { tagOrEmpty s t.name with conditions := setTagCondition (tagOrEmpty s t.name).conditions now .ImportSuccess .condFalse (resolveFailureReason .cyclicReference) "" (specGenerationValue t.generation) }, []) := by
    simp [reconcileTag, h1, h2]
  rw [hres]
  refine ⟨rfl, ?_⟩
  intro tag
  by_cases htag : tag = t.name
  · subst htag
    simp only [itemsOf]
    rw [tagOrEmpty_setTag_self (by simp [tagOrEmpty_tag])]
  · simp only [itemsOf]
    rw [tagOrEmpty_setTag_other htag (by simp [tagOrEmpty_tag])]

/-- Witness for `cyclic_reference_rejected`: the chain A→B→C→A of
reference-type tags fails resolution and records no event anywhere. -/
theorem cyclic_reference_rejected_witness :
    (reconcileTag 0
        [⟨"A", [], some ⟨"ImageStreamTag", "B"⟩, true, none, ⟨false, false⟩⟩,
          ⟨"B", [], some ⟨"ImageStreamTag", "C"⟩, true, none, ⟨false, false⟩⟩,
          ⟨"C", [], some ⟨"ImageStreamTag", "A"⟩, true, none, ⟨false, false⟩⟩]
        5 ⟨"", []⟩
        ⟨"A", [], some ⟨"ImageStreamTag", "B"⟩, true, none, ⟨false, false⟩⟩).2.2 = [] ∧
      ∀ tag, itemsOf (reconcileTag 0
        [⟨"A", [], some ⟨"ImageStreamTag", "B"⟩, true, none, ⟨false, false⟩⟩,
          ⟨"B", [], some ⟨"ImageStreamTag", "C"⟩, true, none, ⟨false, false⟩⟩,
          ⟨"C", [], some ⟨"ImageStreamTag", "A"⟩, true, none, ⟨false, false⟩⟩]
        5 ⟨"", []⟩
        ⟨"A", [], some ⟨"ImageStreamTag", "B"⟩, true, none, ⟨false, false⟩⟩).2.1 tag =
          itemsOf ⟨"", []⟩ tag :=
  cyclic_reference_rejected 0
    [⟨"A", [], some ⟨"ImageStreamTag", "B"⟩, true, none, ⟨false, false⟩⟩,
      ⟨"B", [], some ⟨"ImageStreamTag", "C"⟩, true, none, ⟨false, false⟩⟩,
      ⟨"C", [], some ⟨"ImageStreamTag", "A"⟩, true, none, ⟨false, false⟩⟩]
    5 ⟨"", []⟩
    ⟨"A", [], some ⟨"ImageStreamTag", "B"⟩, true, none, ⟨false, false⟩⟩
    rfl rfl

/-- C8: once an outcome for generation g has been recorded for a tag, a
later-arriving outcome for any strictly lower generation is discarded as a
no-op — folding it leaves the entire stream status unchanged — and the model
treats it as a plain result, not an error. -/
theorem stale_outcome_noop (s : ImageStreamStatus) (tag : String) (gen : Int)
    (now : Time) (o : ImportOutcome)
    (h : gen < recordedGeneration (tagOrEmpty s tag)) :
    applyOutcome s tag gen now o = s := by
  simp [applyOutcome, h]

/-- Witness for `stale_outcome_noop`: a success outcome at generation 2
arriving after generation 3 was recorded leaves the status untouched. -/
theorem stale_outcome_noop_witness :
    applyOutcome ⟨"", [⟨"v1", [⟨0, "r", "i", 3⟩], []⟩]⟩ "v1" 2 7
        (.success "r2" "i2") =
      ⟨"", [⟨"v1", [⟨0, "r", "i", 3⟩], []⟩]⟩ :=
  stale_outcome_noop ⟨"", [⟨"v1", [⟨0, "r", "i", 3⟩], []⟩]⟩ "v1" 2 7
    (.success "r2" "i2") (by decide)

/-- C10: `TagEvent.Generation` and `TagEventCondition.Generation` are
non-optional (`Int`-valued) fields of the status records, while only the
spec-side `TagReference.Generation` is optional — and at the reconciliation
input the nil and 0 values are indistinguishable: reconciling a tag whose
generation is `none` behaves identically to reconciling it with `some 0`. -/
theorem generation_nil_zero_indistinguishable (now : Time)
    (specTags : List TagReference) (counter : Int) (s : ImageStreamStatus)
    (t : TagReference) :
    reconcileTag now specTags counter s { t with generation := none } =
        reconcileTag now specTags counter s { t with generation := some 0 } ∧
      tagNeedsImport s { t with generation := none } =
        tagNeedsImport s { t with generation := some 0 } :=
  ⟨rfl, rfl⟩

end Origin

